import Mathlib

/-!
Verification of the blueberry intent-to-spec-to-code pipeline
(`src/blueberry/models.py` and `src/blueberry/agents.py`).

The Python code is sequential orchestration glue around external model
calls, console prompts and file writes.  We embed it shallowly:

* each external model call is an explicit argument of type
  `Except String α` (the parsed response, or the exception message the
  call raised);
* console answers given by the operator are explicit input data;
* the file system touched by `create_spec` is an association list from
  path to the spec value written there;
* every `agent.invoke` performed by `CodeAgent` is recorded as an
  `AgentCall` event, and the orchestration methods return the list of
  events they emit, in order.
-/

namespace Blueberry

/-! ## Data model (`models.py`) -/

/-- `Intent` from `models.py`: the list of core features. -/
structure Intent where
  features : List String
deriving Repr, DecidableEq

/-- `SupabaseTable` from `models.py`. -/
structure SupabaseTable where
  name : String
  sql_schema : String
deriving Repr, DecidableEq

/-- `APIRoute` from `models.py`. -/
structure APIRoute where
  path : String
  method : String
  description : String
  query : String
deriving Repr, DecidableEq

/-- `Page` from `models.py`. -/
structure Page where
  path : String
  description : String
  api_routes : List String
  components : List String
deriving Repr, DecidableEq

/-- `Component` from `models.py`. -/
structure Component where
  name : String
  description : String
  is_client : Bool
deriving Repr, DecidableEq

/-- `ProjectStructure` from `models.py`. -/
structure ProjectStructure where
  pages : List Page
  components : List Component
  api_routes : List APIRoute
  database : List SupabaseTable
deriving Repr, DecidableEq

/-- `ProjectSpec` from `models.py`.  The Python field `structure` is a Lean
keyword, so it is named `struct` here. -/
structure ProjectSpec where
  name : String
  description : String
  features : List String
  struct : ProjectStructure
deriving Repr, DecidableEq

/-! ## `MasterAgent.understand_intent` (`agents.py` lines 17-40)

The body is one model call inside `try`; any exception `e` is re-raised
as `ValueError(f"Failed to understand intent: {str(e)}")`.  The model
call's outcome is the explicit argument. -/

def understand_intent (modelResult : Except String Intent) : Except String Intent :=
  match modelResult with
  | .ok parsed => .ok parsed
  | .error e => .error ("Failed to understand intent: " ++ e)

/-! ## `MasterAgent.validate_feature` (`agents.py` lines 42-76)

`lumos.call_ai` returns an `Intent`; the method returns
`intent.features[0] if intent.features else feature`.  An exception from
the call propagates unwrapped (no `try` in this method). -/

def validate_feature (feature : String) (modelResult : Except String Intent) :
    Except String String :=
  match modelResult with
  | .error e => .error e
  | .ok intent =>
      .ok (match intent.features with
        | [] => feature
        | f :: _ => f)

/-! ## Spec file path (`agents.py` lines 178-184)

`os.path.join("specs", f"{spec.name.lower().replace(' ', '_')}_spec.json")`.
Python `str.lower()` is modelled per character with `Char.toLower`
(the names involved are ASCII), and `str.replace(' ', '_')` with a
single-character pattern is exactly a character map. -/

def py_lower (s : String) : String :=
  ⟨s.data.map Char.toLower⟩

def py_replace_space_underscore (s : String) : String :=
  ⟨s.data.map (fun c => if c = ' ' then '_' else c)⟩

def os_path_join (a b : String) : String :=
  a ++ "/" ++ b

def spec_file_name (name : String) : String :=
  os_path_join "specs" (py_replace_space_underscore (py_lower name) ++ "_spec.json")

/-! ## `MasterAgent.create_spec` (`agents.py` lines 153-191)

The `try` block performs the model call and then the file write; any
exception is re-raised as
`ValueError(f"Failed to create specification: {str(e)}")`.  The file
system is an association list from path to the `ProjectSpec` written
there (the JSON serialization itself is irrelevant to the claims); the
write is modelled as succeeding whenever the model call succeeds. -/

def create_spec (modelResult : Except String ProjectSpec)
    (fs : List (String × ProjectSpec)) :
    Except String ProjectSpec × List (String × ProjectSpec) :=
  match modelResult with
  | .error e => (.error ("Failed to create specification: " ++ e), fs)
  | .ok spec =>
      let spec_file := spec_file_name spec.name
      (.ok spec, (spec_file, spec) :: fs)

/-! ## `intent.features.pop(remove_idx)` (`agents.py` lines 130-139)

The console prompt only accepts a 1-based index `i` with
`1 ≤ i ≤ len(features)`; the code then pops at `i - 1`. -/

def remove_feature (features : List String) (i : Nat) : List String :=
  features.eraseIdx (i - 1)

/-! ## `MasterAgent.verify_with_user_loop` (`agents.py` lines 78-151)

The loop runs `while attempts < max_attempts`.  Each iteration asks the
operator whether to modify; declining breaks.  Otherwise the operator
chooses add (`"1"`), remove (`"2"`) or done (`"3"`).  One iteration's
worth of operator answers, together with the outcome of the optional
enhancement model call made during an add, is a `UserAction`; the whole
interaction is a list of them.  The loop consumes one `UserAction` per
iteration of its body, and we also return the list of iterations that
ran, tagged by the branch taken, so that iteration counts can be
stated. -/

inductive UserAction where
  /-- Answer "no" to `Would you like to modify these features?`. -/
  | decline
  /-- Choose `"1"`: `text` is the entered feature, `useAI` the answer to
  `Would you like AI to validate and enhance this feature?`,
  `modelResult` the outcome of the `validate_feature` model call, and
  `accept` the answer to `Would you like to use the enhanced version?`. -/
  | add (text : String) (useAI : Bool) (modelResult : Except String Intent) (accept : Bool)
  /-- Choose `"2"` and, when the list is non-empty, enter the 1-based
  index `idx` (the console restricts it to `1 ≤ idx ≤ length`). -/
  | remove (idx : Nat)
  /-- Choose `"3"`. -/
  | done
deriving Repr

/-- Which branch a loop-body iteration took. -/
inductive IterKind where
  | declined
  | added
  | removedOnEmpty
  | removed
  | doneChosen
deriving Repr, DecidableEq

/-- The loop state: the (mutated) `intent.features` and the `attempts`
counter. -/
structure LoopState where
  features : List String
  attempts : Nat
deriving Repr, DecidableEq

/-- The add branch (`agents.py` lines 109-128).  Returns the feature
that is appended and whether an enhancement error was printed to the
console.  On a model error the raw text is kept; on success the
enhanced text is used only when it differs from the raw text and the
operator accepts it. -/
def add_feature_path (new_feature : String) (useAI : Bool)
    (modelResult : Except String Intent) (accept : Bool) : String × Bool :=
  if useAI then
    match validate_feature new_feature modelResult with
    | .error _ => (new_feature, true)
    | .ok enhanced_feature =>
        if enhanced_feature != new_feature && accept then (enhanced_feature, false)
        else (new_feature, false)
  else (new_feature, false)

/-- `verify_with_user_loop`, as a function of the operator's answers.
Returns the final state together with the tags of the loop-body
iterations that ran, in order.  An empty input list means the operator
gives no further answers, in which case the (blocking) console model
stops.  `attempts` is incremented exactly where line 144 runs: after an
add, and after a remove on a non-empty list; the remove-on-empty branch
hits `continue` (line 133) first. -/
def verify_loop (max_attempts : Nat) : List UserAction → LoopState → LoopState × List IterKind
  | [], st => (st, [])
  | a :: rest, st =>
    if st.attempts < max_attempts then
      match a with
      | .decline => (st, [IterKind.declined])
      | .done => (st, [IterKind.doneChosen])
      | .add text useAI modelResult accept =>
          let new_feature := (add_feature_path text useAI modelResult accept).1
          let r := verify_loop max_attempts rest
            ⟨st.features ++ [new_feature], st.attempts + 1⟩
          (r.1, IterKind.added :: r.2)
      | .remove idx =>
          if st.features.isEmpty then
            let r := verify_loop max_attempts rest st
            (r.1, IterKind.removedOnEmpty :: r.2)
          else
            let r := verify_loop max_attempts rest
              ⟨remove_feature st.features idx, st.attempts + 1⟩
            (r.1, IterKind.removed :: r.2)
    else (st, [])

/-- Unfolding lemma: declining ends the loop after one iteration. -/
theorem verify_loop_decline_step (m : Nat) (rest : List UserAction) (st : LoopState)
    (hlt : st.attempts < m) :
    verify_loop m (UserAction.decline :: rest) st = (st, [IterKind.declined]) := by
  simp [verify_loop, hlt]

/-- Unfolding lemma: choosing done ends the loop after one iteration. -/
theorem verify_loop_done_step (m : Nat) (rest : List UserAction) (st : LoopState)
    (hlt : st.attempts < m) :
    verify_loop m (UserAction.done :: rest) st = (st, [IterKind.doneChosen]) := by
  simp [verify_loop, hlt]

/-- Unfolding lemma: an add appends the add-path result and increments
the counter. -/
theorem verify_loop_add_step (m : Nat) (rest : List UserAction) (st : LoopState)
    (text : String) (useAI : Bool) (modelResult : Except String Intent)
    (accept : Bool) (hlt : st.attempts < m) :
    verify_loop m (UserAction.add text useAI modelResult accept :: rest) st =
      ((verify_loop m rest
          ⟨st.features ++ [(add_feature_path text useAI modelResult accept).1],
            st.attempts + 1⟩).1,
        IterKind.added :: (verify_loop m rest
          ⟨st.features ++ [(add_feature_path text useAI modelResult accept).1],
            st.attempts + 1⟩).2) := by
  simp [verify_loop, hlt]

/-- Unfolding lemma: a remove with an empty feature list hits
`continue` and changes nothing. -/
theorem verify_loop_removeEmpty_step (m : Nat) (rest : List UserAction)
    (st : LoopState) (idx : Nat) (hlt : st.attempts < m)
    (hemp : st.features.isEmpty = true) :
    verify_loop m (UserAction.remove idx :: rest) st =
      ((verify_loop m rest st).1,
        IterKind.removedOnEmpty :: (verify_loop m rest st).2) := by
  simp [verify_loop, hlt, hemp]

/-- Unfolding lemma: a remove with a non-empty feature list pops the
selected feature and increments the counter. -/
theorem verify_loop_remove_step (m : Nat) (rest : List UserAction)
    (st : LoopState) (idx : Nat) (hlt : st.attempts < m)
    (hemp : st.features.isEmpty = false) :
    verify_loop m (UserAction.remove idx :: rest) st =
      ((verify_loop m rest
          ⟨remove_feature st.features idx, st.attempts + 1⟩).1,
        IterKind.removed :: (verify_loop m rest
          ⟨remove_feature st.features idx, st.attempts + 1⟩).2) := by
  simp [verify_loop, hlt, hemp]

/-- Unfolding lemma: once `attempts` reaches the bound the loop body
never runs again. -/
theorem verify_loop_stop (m : Nat) (acts : List UserAction) (st : LoopState)
    (hge : ¬ st.attempts < m) :
    verify_loop m acts st = (st, []) := by
  cases acts <;> simp [verify_loop, hge]

/-! ## `CodeAgent` (`agents.py` lines 239-494)

Every `self.agent.invoke(...)` is recorded as an `AgentCall` event.  The
file edits performed through the shared helper `_execute_file_edit` are
`editFile` events; they additionally carry the phase of the pipeline the
call site belongs to (component / route / database / integration), which
in the Python code is encoded in the `session_id` passed at each call
site (`edit_component_…`, `edit_route_…`, `edit_table_…`,
`edit_integration_…`).

The planning responses are Python dictionaries read with optimistic
`.get` lookups; a `PlanResp` holds the three keys the code reads, each
`Option`al.  Python truthiness is modelled by `truthy` /`truthyFiles`:
`None` and the empty string (resp. the empty list) are falsy.  The
responses are supplied by an oracle `O : AgentCall → PlanResp` mapping
each invocation to what the agent returns (a run in which some call
raises simply stops the trace at a prefix, which cannot reorder
events). -/

/-- Which per-unit loop an `_execute_file_edit` call was issued from. -/
inductive Phase where
  | components
  | routes
  | database
  | integration
deriving Repr, DecidableEq

/-- One `agent.invoke` event. -/
inductive AgentCall where
  /-- `analyze_codebase` (lines 271-292), session `analyze_codebase`. -/
  | analyze
  /-- `_generate_implementation_plan` (lines 294-325), session
  `generate_implementation_plan`. -/
  | plan
  /-- The per-component planning call (lines 330-351). -/
  | planComponent (name : String)
  /-- The per-route planning call (lines 363-382). -/
  | planRoute (path : String)
  /-- The per-table planning call (lines 394-412). -/
  | planTable (name : String)
  /-- The integration planning call (lines 425-442). -/
  | planIntegration
  /-- `_execute_file_edit` (lines 258-269). -/
  | editFile (ph : Phase) (file_path : String) (content : String) (session_id : String)
deriving Repr, DecidableEq

/-- The dictionary keys the orchestrator reads from a `files` entry. -/
structure FileEntry where
  path : Option String
  content : Option String
deriving Repr, DecidableEq

/-- The dictionary keys the orchestrator reads from a planning
response. -/
structure PlanResp where
  file_path : Option String
  content : Option String
  files : Option (List FileEntry)
deriving Repr, DecidableEq

/-- Python truthiness of `d.get(key)` for a string value: `None` and
`""` are falsy. -/
def truthy : Option String → Bool
  | none => false
  | some s => !(s == "")

/-- Python truthiness of `d.get('files')`: `None` and `[]` are falsy. -/
def truthyFiles : Option (List FileEntry) → Bool
  | none => false
  | some l => !l.isEmpty

/-- `_execute_file_edit` (lines 258-269): one `agent.invoke` that
applies the edit. -/
def _execute_file_edit (ph : Phase) (file_path : String) (content : String)
    (session_id : String) : AgentCall :=
  AgentCall.editFile ph file_path content session_id

/-- The body of the `for component in self.spec.structure.components`
loop in `_implement_components` (lines 329-358): one planning call,
then an edit call iff both `file_path` and `content` are truthy. -/
def implement_one_component (O : AgentCall → PlanResp) (component : Component) :
    List AgentCall :=
  let component_plan := O (AgentCall.planComponent component.name)
  AgentCall.planComponent component.name ::
    (if truthy component_plan.file_path && truthy component_plan.content then
      [_execute_file_edit Phase.components (component_plan.file_path.getD "")
        (component_plan.content.getD "") ("edit_component_" ++ component.name)]
    else [])

/-- `_implement_components` (lines 327-358). -/
def _implement_components (O : AgentCall → PlanResp) (components : List Component) :
    List AgentCall :=
  components.flatMap (implement_one_component O)

/-- The body of the `for route in self.spec.structure.api_routes` loop
in `_implement_api_routes` (lines 362-389). -/
def implement_one_route (O : AgentCall → PlanResp) (route : APIRoute) :
    List AgentCall :=
  let route_plan := O (AgentCall.planRoute route.path)
  AgentCall.planRoute route.path ::
    (if truthy route_plan.file_path && truthy route_plan.content then
      [_execute_file_edit Phase.routes (route_plan.file_path.getD "")
        (route_plan.content.getD "") ("edit_route_" ++ route.path)]
    else [])

/-- `_implement_api_routes` (lines 360-389). -/
def _implement_api_routes (O : AgentCall → PlanResp) (api_routes : List APIRoute) :
    List AgentCall :=
  api_routes.flatMap (implement_one_route O)

/-- The inner `for file_info in table_plan['files']` loop of
`_implement_database` (lines 415-421): an edit per entry whose `path`
and `content` are truthy. -/
def table_file_edits (table : SupabaseTable) (files : List FileEntry) :
    List AgentCall :=
  files.flatMap fun file_info =>
    if truthy file_info.path && truthy file_info.content then
      [_execute_file_edit Phase.database (file_info.path.getD "")
        (file_info.content.getD "")
        ("edit_table_" ++ table.name ++ "_" ++ file_info.path.getD "")]
    else []

/-- The body of the `for table in self.spec.structure.database` loop in
`_implement_database` (lines 393-421). -/
def implement_one_table (O : AgentCall → PlanResp) (table : SupabaseTable) :
    List AgentCall :=
  let table_plan := O (AgentCall.planTable table.name)
  AgentCall.planTable table.name ::
    (if truthyFiles table_plan.files then
      table_file_edits table (table_plan.files.getD [])
    else [])

/-- `_implement_database` (lines 391-421). -/
def _implement_database (O : AgentCall → PlanResp) (database : List SupabaseTable) :
    List AgentCall :=
  database.flatMap (implement_one_table O)

/-- The inner loop of `_integrate_components` (lines 444-451). -/
def integration_file_edits (files : List FileEntry) : List AgentCall :=
  files.flatMap fun file_info =>
    if truthy file_info.path && truthy file_info.content then
      [_execute_file_edit Phase.integration (file_info.path.getD "")
        (file_info.content.getD "")
        ("edit_integration_" ++ file_info.path.getD "")]
    else []

/-- `_integrate_components` (lines 423-451): one planning call, then
edits for the truthy entries of `files`. -/
def _integrate_components (O : AgentCall → PlanResp) : List AgentCall :=
  let integration_plan := O AgentCall.planIntegration
  AgentCall.planIntegration ::
    (if truthyFiles integration_plan.files then
      integration_file_edits (integration_plan.files.getD [])
    else [])

/-- `analyze_codebase` (lines 271-292): one `agent.invoke`. -/
def analyze_codebase : List AgentCall :=
  [AgentCall.analyze]

/-- `_generate_implementation_plan` (lines 294-325): one
`agent.invoke` on the analysis. -/
def _generate_implementation_plan : List AgentCall :=
  [AgentCall.plan]

/-- `implement_features` (lines 453-475): analyze, plan, then
components, routes, database, integration, in that textual order. -/
def implement_features (O : AgentCall → PlanResp) (spec : ProjectSpec) :
    List AgentCall :=
  analyze_codebase ++ _generate_implementation_plan
    ++ _implement_components O spec.struct.components
    ++ _implement_api_routes O spec.struct.api_routes
    ++ _implement_database O spec.struct.database
    ++ _integrate_components O

/-- `transform_template` (lines 477-494): `analyze_codebase` first,
then the whole of `implement_features`. -/
def transform_template (O : AgentCall → PlanResp) (spec : ProjectSpec) :
    List AgentCall :=
  analyze_codebase ++ implement_features O spec

/-- The pipeline phase of an event, used to state the ordering
invariant: analyze < plan < components < routes < database <
integration.  An edit event belongs to the phase of the loop that
issued it. -/
def phase : AgentCall → Nat
  | .analyze => 0
  | .plan => 1
  | .planComponent _ => 2
  | .planRoute _ => 3
  | .planTable _ => 4
  | .planIntegration => 5
  | .editFile ph _ _ _ =>
      match ph with
      | .components => 2
      | .routes => 3
      | .database => 4
      | .integration => 5

/-! ## Theorems -/

/-- C6: the spec file path is a deterministic function of the project
name — lowercase it, replace spaces with underscores, and place it
under the `specs` directory with suffix `_spec.json`; in particular for
project name `My App` the output file is `specs/my_app_spec.json`. -/
theorem spec_file_name_deterministic :
    (∀ name, spec_file_name name =
      "specs/" ++ (py_replace_space_underscore (py_lower name) ++ "_spec.json")) ∧
    spec_file_name "My App" = "specs/my_app_spec.json" :=
  ⟨fun _ => rfl, by decide⟩

/-- C8: `validate_feature` returns the first element of the feature
list in the model's response when that list is non-empty, and returns
the original input feature unchanged when the response's feature list
is empty. -/
theorem validate_feature_first_or_original (feature f : String) (fs : List String) :
    validate_feature feature (.ok ⟨f :: fs⟩) = .ok f ∧
    validate_feature feature (.ok ⟨[]⟩) = .ok feature :=
  ⟨rfl, rfl⟩

/-- C3: for every feature list of length `n` and every valid 1-based
index `i` with `1 ≤ i ≤ n`, the remove operation yields a list of
length `n - 1` equal to the original list with exactly its `i`-th
element deleted, all other elements kept in order. -/
theorem remove_feature_correct (l : List String) (i : Nat)
    (h1 : 1 ≤ i) (h2 : i ≤ l.length) :
    (remove_feature l i).length = l.length - 1 ∧
    remove_feature l i = l.take (i - 1) ++ l.drop i := by
  have hlt : i - 1 < l.length := by omega
  have hsucc : i - 1 + 1 = i := by omega
  constructor
  · rw [remove_feature, List.length_eraseIdx_of_lt hlt]
  · rw [remove_feature, List.eraseIdx_eq_take_drop_succ, hsucc]

/-- Witness for `remove_feature_correct` at `l = ["a", "b", "c"]`,
`i = 2`. -/
theorem remove_feature_correct_witness :
    (remove_feature ["a", "b", "c"] 2).length = 3 - 1 ∧
    remove_feature ["a", "b", "c"] 2 =
      List.take (2 - 1) ["a", "b", "c"] ++ List.drop 2 ["a", "b", "c"] :=
  remove_feature_correct ["a", "b", "c"] 2 (by decide) (by decide)

/-- C1: if the model call in `understand_intent` or `create_spec`
raises, the method raises the wrapped generic error for that stage, and
no partial spec file is written — the file system is unchanged and any
path absent before the failed `create_spec` is still absent after. -/
theorem model_error_wrapped_no_write (e : String)
    (fs : List (String × ProjectSpec)) (p : String)
    (habs : fs.lookup p = none) :
    understand_intent (.error e) = .error ("Failed to understand intent: " ++ e) ∧
    (create_spec (.error e) fs).1 = .error ("Failed to create specification: " ++ e) ∧
    (create_spec (.error e) fs).2 = fs ∧
    ((create_spec (.error e) fs).2).lookup p = none :=
  ⟨rfl, rfl, rfl, habs⟩

/-- Witness for `model_error_wrapped_no_write` on an empty file system
and the path the spec for `My App` would have been written to. -/
theorem model_error_wrapped_no_write_witness :
    understand_intent (.error "boom") =
      .error ("Failed to understand intent: " ++ "boom") ∧
    (create_spec (.error "boom") ([] : List (String × ProjectSpec))).1 =
      .error ("Failed to create specification: " ++ "boom") ∧
    (create_spec (.error "boom") ([] : List (String × ProjectSpec))).2 = [] ∧
    ((create_spec (.error "boom") ([] : List (String × ProjectSpec))).2).lookup
      "specs/my_app_spec.json" = none :=
  model_error_wrapped_no_write "boom" [] "specs/my_app_spec.json" rfl

/-- C10: if the operator chooses the remove option while the feature
list is empty, the iteration leaves the loop state — feature list and
attempt counter — unchanged: the run continues exactly as the run on
the remaining inputs from the same state, with the iteration recorded
as a remove-on-empty one. -/
theorem remove_on_empty_unchanged (max_attempts : Nat) (acts : List UserAction)
    (st : LoopState) (idx : Nat) (hempty : st.features = [])
    (hlt : st.attempts < max_attempts) :
    verify_loop max_attempts (UserAction.remove idx :: acts) st =
      ((verify_loop max_attempts acts st).1,
        IterKind.removedOnEmpty :: (verify_loop max_attempts acts st).2) := by
  simp [verify_loop, hlt, hempty]

/-- Witness for `remove_on_empty_unchanged`: a remove with no features
present, followed by a decline; the state stays `⟨[], 0⟩`. -/
theorem remove_on_empty_unchanged_witness :
    verify_loop 3 [UserAction.remove 1, UserAction.decline] ⟨[], 0⟩ =
      ((verify_loop 3 [UserAction.decline] ⟨[], 0⟩).1,
        IterKind.removedOnEmpty :: (verify_loop 3 [UserAction.decline] ⟨[], 0⟩).2) :=
  remove_on_empty_unchanged 3 [UserAction.decline] ⟨[], 0⟩ 1 rfl (by decide)

/-- C7: in the add path, if the feature-enhancement model call raises,
the error is reported to the operator (the reported flag of
`add_feature_path` is set), the raw non-enhanced feature text is
appended to the feature list, and the loop continues on the remaining
inputs rather than aborting. -/
theorem add_model_error_keeps_raw (max_attempts : Nat) (acts : List UserAction)
    (st : LoopState) (text e : String) (accept : Bool)
    (hlt : st.attempts < max_attempts) :
    add_feature_path text true (.error e) accept = (text, true) ∧
    verify_loop max_attempts (UserAction.add text true (.error e) accept :: acts) st =
      ((verify_loop max_attempts acts
          ⟨st.features ++ [text], st.attempts + 1⟩).1,
        IterKind.added :: (verify_loop max_attempts acts
          ⟨st.features ++ [text], st.attempts + 1⟩).2) := by
  constructor
  · rfl
  · simp [verify_loop, hlt, add_feature_path, validate_feature]

/-- Witness for `add_model_error_keeps_raw`: the enhancement call
fails, `"chat"` is appended raw, and the next input is still
processed. -/
theorem add_model_error_keeps_raw_witness :
    add_feature_path "chat" true (.error "timeout") true = ("chat", true) ∧
    verify_loop 3 [UserAction.add "chat" true (.error "timeout") true,
        UserAction.decline] ⟨["auth"], 0⟩ =
      ((verify_loop 3 [UserAction.decline] ⟨["auth"] ++ ["chat"], 0 + 1⟩).1,
        IterKind.added :: (verify_loop 3 [UserAction.decline]
          ⟨["auth"] ++ ["chat"], 0 + 1⟩).2) :=
  add_model_error_keeps_raw 3 [UserAction.decline] ⟨["auth"], 0⟩ "chat" "timeout"
    true (by decide)

/-- C4, counterexample to the stated iteration bound: with the default
`max_attempts = 3`, an operator who five times chooses remove while the
feature list is empty drives the loop through five body iterations,
more than `max_attempts + 1 = 4` — the remove-on-empty branch hits
`continue` without incrementing the counter. -/
theorem verify_loop_iteration_bound_cex :
    (verify_loop 3
        [UserAction.remove 1, UserAction.remove 1, UserAction.remove 1,
          UserAction.remove 1, UserAction.remove 1] ⟨[], 0⟩).2.length = 5 ∧
    ¬ ((verify_loop 3
        [UserAction.remove 1, UserAction.remove 1, UserAction.remove 1,
          UserAction.remove 1, UserAction.remove 1] ⟨[], 0⟩).2.length ≤ 3 + 1) := by
  decide

/-- C4, amended: the attempt counter never exceeds `max_attempts`, and
the number of loop-body iterations other than remove-on-empty-list
iterations (which do not increment the counter) is at most
`max_attempts - attempts + 1`; the loop terminates on every finite
input sequence (it consumes one input per iteration). -/
theorem verify_loop_attempts_le (max_attempts : Nat) (acts : List UserAction)
    (st : LoopState) (h : st.attempts ≤ max_attempts) :
    (verify_loop max_attempts acts st).1.attempts ≤ max_attempts ∧
    ((verify_loop max_attempts acts st).2.filter
        (fun k => k != IterKind.removedOnEmpty)).length
      ≤ max_attempts - st.attempts + 1 := by
  induction acts generalizing st with
  | nil =>
      exact ⟨h, by simp [verify_loop]⟩
  | cons a rest ih =>
      by_cases hlt : st.attempts < max_attempts
      · cases a with
        | decline =>
            rw [verify_loop_decline_step max_attempts rest st hlt]
            refine ⟨h, ?_⟩
            show (List.filter (fun k => k != IterKind.removedOnEmpty)
              [IterKind.declined]).length ≤ max_attempts - st.attempts + 1
            rw [show (List.filter (fun k => k != IterKind.removedOnEmpty)
              [IterKind.declined]).length = 1 from rfl]
            omega
        | done =>
            rw [verify_loop_done_step max_attempts rest st hlt]
            refine ⟨h, ?_⟩
            show (List.filter (fun k => k != IterKind.removedOnEmpty)
              [IterKind.doneChosen]).length ≤ max_attempts - st.attempts + 1
            rw [show (List.filter (fun k => k != IterKind.removedOnEmpty)
              [IterKind.doneChosen]).length = 1 from rfl]
            omega
        | add text useAI modelResult accept =>
            rw [verify_loop_add_step max_attempts rest st text useAI modelResult
              accept hlt]
            obtain ⟨ha, hb⟩ := ih ⟨st.features ++
              [(add_feature_path text useAI modelResult accept).1],
              st.attempts + 1⟩ hlt
            refine ⟨ha, ?_⟩
            show (List.filter (fun k => k != IterKind.removedOnEmpty)
              (IterKind.added :: (verify_loop max_attempts rest
                ⟨st.features ++ [(add_feature_path text useAI modelResult accept).1],
                  st.attempts + 1⟩).2)).length ≤ max_attempts - st.attempts + 1
            rw [show List.filter (fun k => k != IterKind.removedOnEmpty)
              (IterKind.added :: (verify_loop max_attempts rest
                ⟨st.features ++ [(add_feature_path text useAI modelResult accept).1],
                  st.attempts + 1⟩).2)
              = IterKind.added :: List.filter (fun k => k != IterKind.removedOnEmpty)
                  (verify_loop max_attempts rest
                    ⟨st.features ++
                      [(add_feature_path text useAI modelResult accept).1],
                      st.attempts + 1⟩).2 from rfl, List.length_cons]
            have hb' : (List.filter (fun k => k != IterKind.removedOnEmpty)
              (verify_loop max_attempts rest
                ⟨st.features ++ [(add_feature_path text useAI modelResult accept).1],
                  st.attempts + 1⟩).2).length
              ≤ max_attempts - (st.attempts + 1) + 1 := hb
            omega
        | remove idx =>
            cases hemp : st.features.isEmpty with
            | true =>
                rw [verify_loop_removeEmpty_step max_attempts rest st idx hlt hemp]
                obtain ⟨ha, hb⟩ := ih st h
                refine ⟨ha, ?_⟩
                show (List.filter (fun k => k != IterKind.removedOnEmpty)
                  (IterKind.removedOnEmpty ::
                    (verify_loop max_attempts rest st).2)).length
                  ≤ max_attempts - st.attempts + 1
                rw [show List.filter (fun k => k != IterKind.removedOnEmpty)
                  (IterKind.removedOnEmpty :: (verify_loop max_attempts rest st).2)
                  = List.filter (fun k => k != IterKind.removedOnEmpty)
                      (verify_loop max_attempts rest st).2 from rfl]
                exact hb
            | false =>
                rw [verify_loop_remove_step max_attempts rest st idx hlt hemp]
                obtain ⟨ha, hb⟩ := ih ⟨remove_feature st.features idx,
                  st.attempts + 1⟩ hlt
                refine ⟨ha, ?_⟩
                show (List.filter (fun k => k != IterKind.removedOnEmpty)
                  (IterKind.removed :: (verify_loop max_attempts rest
                    ⟨remove_feature st.features idx, st.attempts + 1⟩).2)).length
                  ≤ max_attempts - st.attempts + 1
                rw [show List.filter (fun k => k != IterKind.removedOnEmpty)
                  (IterKind.removed :: (verify_loop max_attempts rest
                    ⟨remove_feature st.features idx, st.attempts + 1⟩).2)
                  = IterKind.removed ::
                      List.filter (fun k => k != IterKind.removedOnEmpty)
                        (verify_loop max_attempts rest
                          ⟨remove_feature st.features idx,
                            st.attempts + 1⟩).2 from rfl, List.length_cons]
                have hb' : (List.filter (fun k => k != IterKind.removedOnEmpty)
                  (verify_loop max_attempts rest
                    ⟨remove_feature st.features idx, st.attempts + 1⟩).2).length
                  ≤ max_attempts - (st.attempts + 1) + 1 := hb
                omega
      · rw [verify_loop_stop max_attempts (a :: rest) st hlt]
        refine ⟨h, ?_⟩
        show (List.filter (fun k => k != IterKind.removedOnEmpty)
          ([] : List IterKind)).length ≤ max_attempts - st.attempts + 1
        rw [show (List.filter (fun k => k != IterKind.removedOnEmpty)
          ([] : List IterKind)).length = 0 from rfl]
        omega

/-- Witness for `verify_loop_attempts_le`: four adds against
`max_attempts = 3` — the counter stops at 3 and only the first three
adds run. -/
theorem verify_loop_attempts_le_witness :
    (verify_loop 3
        [UserAction.add "a" false (.ok ⟨[]⟩) false,
          UserAction.add "b" false (.ok ⟨[]⟩) false,
          UserAction.add "c" false (.ok ⟨[]⟩) false,
          UserAction.add "d" false (.ok ⟨[]⟩) false] ⟨[], 0⟩).1.attempts ≤ 3 ∧
    ((verify_loop 3
        [UserAction.add "a" false (.ok ⟨[]⟩) false,
          UserAction.add "b" false (.ok ⟨[]⟩) false,
          UserAction.add "c" false (.ok ⟨[]⟩) false,
          UserAction.add "d" false (.ok ⟨[]⟩) false] ⟨[], 0⟩).2.filter
        (fun k => k != IterKind.removedOnEmpty)).length ≤ 3 - 0 + 1 :=
  verify_loop_attempts_le 3
    [UserAction.add "a" false (.ok ⟨[]⟩) false,
      UserAction.add "b" false (.ok ⟨[]⟩) false,
      UserAction.add "c" false (.ok ⟨[]⟩) false,
      UserAction.add "d" false (.ok ⟨[]⟩) false] ⟨[], 0⟩ (by decide)

/-! ### Phase bookkeeping for the orchestrator trace -/

/-- Every event emitted while implementing one component has phase 2. -/
theorem phase_of_mem_one_component (O : AgentCall → PlanResp) (c : Component) :
    ∀ e ∈ implement_one_component O c, phase e = 2 := by
  intro e he
  simp only [implement_one_component, List.mem_cons] at he
  rcases he with rfl | he
  · rfl
  · split at he <;> simp_all [_execute_file_edit, phase]

/-- Every event emitted by `_implement_components` has phase 2. -/
theorem phase_of_mem_components (O : AgentCall → PlanResp) (cs : List Component) :
    ∀ e ∈ _implement_components O cs, phase e = 2 := by
  intro e he
  simp only [_implement_components, List.mem_flatMap] at he
  obtain ⟨c, _, hec⟩ := he
  exact phase_of_mem_one_component O c e hec

/-- Every event emitted while implementing one API route has phase 3. -/
theorem phase_of_mem_one_route (O : AgentCall → PlanResp) (r : APIRoute) :
    ∀ e ∈ implement_one_route O r, phase e = 3 := by
  intro e he
  simp only [implement_one_route, List.mem_cons] at he
  rcases he with rfl | he
  · rfl
  · split at he <;> simp_all [_execute_file_edit, phase]

/-- Every event emitted by `_implement_api_routes` has phase 3. -/
theorem phase_of_mem_routes (O : AgentCall → PlanResp) (rs : List APIRoute) :
    ∀ e ∈ _implement_api_routes O rs, phase e = 3 := by
  intro e he
  simp only [_implement_api_routes, List.mem_flatMap] at he
  obtain ⟨r, _, her⟩ := he
  exact phase_of_mem_one_route O r e her

/-- Every event emitted by the per-table file-edit loop has phase 4. -/
theorem phase_of_mem_table_edits (t : SupabaseTable) (files : List FileEntry) :
    ∀ e ∈ table_file_edits t files, phase e = 4 := by
  intro e he
  simp only [table_file_edits, List.mem_flatMap] at he
  obtain ⟨fi, _, hef⟩ := he
  split at hef <;> simp_all [_execute_file_edit, phase]

/-- Every event emitted while implementing one table has phase 4. -/
theorem phase_of_mem_one_table (O : AgentCall → PlanResp) (t : SupabaseTable) :
    ∀ e ∈ implement_one_table O t, phase e = 4 := by
  intro e he
  simp only [implement_one_table, List.mem_cons] at he
  rcases he with rfl | he
  · rfl
  · split at he
    · exact phase_of_mem_table_edits t _ e he
    · simp at he

/-- Every event emitted by `_implement_database` has phase 4. -/
theorem phase_of_mem_database (O : AgentCall → PlanResp) (ts : List SupabaseTable) :
    ∀ e ∈ _implement_database O ts, phase e = 4 := by
  intro e he
  simp only [_implement_database, List.mem_flatMap] at he
  obtain ⟨t, _, het⟩ := he
  exact phase_of_mem_one_table O t e het

/-- Every event emitted by the integration file-edit loop has phase 5. -/
theorem phase_of_mem_integration_edits (files : List FileEntry) :
    ∀ e ∈ integration_file_edits files, phase e = 5 := by
  intro e he
  simp only [integration_file_edits, List.mem_flatMap] at he
  obtain ⟨fi, _, hef⟩ := he
  split at hef <;> simp_all [_execute_file_edit, phase]

/-- Every event emitted by `_integrate_components` has phase 5. -/
theorem phase_of_mem_integration (O : AgentCall → PlanResp) :
    ∀ e ∈ _integrate_components O, phase e = 5 := by
  intro e he
  simp only [_integrate_components, List.mem_cons] at he
  rcases he with rfl | he
  · rfl
  · split at he
    · exact phase_of_mem_integration_edits _ e he
    · simp at he

/-- A list all of whose events share one phase is phase-sorted. -/
theorem pairwise_phase_of_const {l : List AgentCall} {k : Nat}
    (h : ∀ e ∈ l, phase e = k) :
    l.Pairwise (fun a b => phase a ≤ phase b) := by
  induction l with
  | nil => exact List.Pairwise.nil
  | cons a t ih =>
      refine List.Pairwise.cons (fun b hb => ?_)
        (ih fun e he => h e (List.mem_cons_of_mem a he))
      rw [h a (List.mem_cons_self a t), h b (List.mem_cons_of_mem a hb)]

/-- C2: in every run of `implement_features` the agent invocations
follow the fixed order — the trace starts with the analyze call and
then the plan call, the integration call is present, and the phases of
the events (analyze < plan < per-component < per-route < per-table <
integration) are monotone along the trace, so every call of an earlier
stage precedes every call of a later one. -/
theorem implement_features_call_order (O : AgentCall → PlanResp)
    (spec : ProjectSpec) :
    (implement_features O spec).take 2 = [AgentCall.analyze, AgentCall.plan] ∧
    AgentCall.planIntegration ∈ implement_features O spec ∧
    (implement_features O spec).Pairwise (fun a b => phase a ≤ phase b) := by
  refine ⟨rfl, ?_, ?_⟩
  · simp [implement_features, _integrate_components, analyze_codebase,
      _generate_implementation_plan]
  · have hA := phase_of_mem_components O spec.struct.components
    have hB := phase_of_mem_routes O spec.struct.api_routes
    have hC := phase_of_mem_database O spec.struct.database
    have hD := phase_of_mem_integration O
    have pCD : (_implement_database O spec.struct.database
        ++ _integrate_components O).Pairwise (fun a b => phase a ≤ phase b) :=
      List.pairwise_append.mpr ⟨pairwise_phase_of_const hC,
        pairwise_phase_of_const hD,
        fun a ha b hb => by rw [hC a ha, hD b hb]; omega⟩
    have hCD : ∀ e ∈ _implement_database O spec.struct.database
        ++ _integrate_components O, 4 ≤ phase e := by
      intro e he
      rcases List.mem_append.mp he with h' | h'
      · rw [hC e h']
      · rw [hD e h']; omega
    have pBCD : (_implement_api_routes O spec.struct.api_routes
        ++ (_implement_database O spec.struct.database
          ++ _integrate_components O)).Pairwise (fun a b => phase a ≤ phase b) :=
      List.pairwise_append.mpr ⟨pairwise_phase_of_const hB, pCD,
        fun a ha b hb => by rw [hB a ha]; exact le_trans (by omega) (hCD b hb)⟩
    have hBCD : ∀ e ∈ _implement_api_routes O spec.struct.api_routes
        ++ (_implement_database O spec.struct.database
          ++ _integrate_components O), 3 ≤ phase e := by
      intro e he
      rcases List.mem_append.mp he with h' | h'
      · rw [hB e h']
      · exact le_trans (by omega) (hCD e h')
    have pABCD : (_implement_components O spec.struct.components
        ++ (_implement_api_routes O spec.struct.api_routes
          ++ (_implement_database O spec.struct.database
            ++ _integrate_components O))).Pairwise
          (fun a b => phase a ≤ phase b) :=
      List.pairwise_append.mpr ⟨pairwise_phase_of_const hA, pBCD,
        fun a ha b hb => by rw [hA a ha]; exact le_trans (by omega) (hBCD b hb)⟩
    have hABCD : ∀ e ∈ _implement_components O spec.struct.components
        ++ (_implement_api_routes O spec.struct.api_routes
          ++ (_implement_database O spec.struct.database
            ++ _integrate_components O)), 2 ≤ phase e := by
      intro e he
      rcases List.mem_append.mp he with h' | h'
      · rw [hA e h']
      · exact le_trans (by omega) (hBCD e h')
    have hshape : implement_features O spec
        = AgentCall.analyze :: AgentCall.plan ::
          (_implement_components O spec.struct.components
            ++ (_implement_api_routes O spec.struct.api_routes
              ++ (_implement_database O spec.struct.database
                ++ _integrate_components O))) := by
      simp [implement_features, analyze_codebase, _generate_implementation_plan,
        List.append_assoc]
    rw [hshape]
    refine List.Pairwise.cons (fun b hb => ?_)
      (List.Pairwise.cons (fun b hb => ?_) pABCD)
    · exact Nat.zero_le _
    · exact le_trans (show phase AgentCall.plan ≤ 2 by decide) (hABCD b hb)

/-- C9: in every successful run of `transform_template` the
codebase-analysis call is executed twice before the plan call — once
directly by `transform_template` and once again by the nested
`implement_features` — and never afterwards. -/
theorem transform_template_analyzes_twice (O : AgentCall → PlanResp)
    (spec : ProjectSpec) :
    ∃ rest, transform_template O spec =
      AgentCall.analyze :: AgentCall.analyze :: AgentCall.plan :: rest ∧
      AgentCall.analyze ∉ rest := by
  refine ⟨_implement_components O spec.struct.components
    ++ (_implement_api_routes O spec.struct.api_routes
      ++ (_implement_database O spec.struct.database
        ++ _integrate_components O)), ?_, ?_⟩
  · simp [transform_template, implement_features, analyze_codebase,
      _generate_implementation_plan, List.append_assoc]
  · intro hmem
    have h2 : (2 : Nat) ≤ phase AgentCall.analyze := by
      rcases List.mem_append.mp hmem with h' | h'
      · have := phase_of_mem_components O spec.struct.components _ h'
        omega
      · rcases List.mem_append.mp h' with h'' | h''
        · have := phase_of_mem_routes O spec.struct.api_routes _ h''
          omega
        · rcases List.mem_append.mp h'' with h3 | h3
          · have := phase_of_mem_database O spec.struct.database _ h3
            omega
          · have := phase_of_mem_integration O _ h3
            omega
    simp [phase] at h2

/-! ### Per-unit skip behaviour -/

/-- The per-table edit loop issues nothing when every entry misses
`path` or `content`. -/
theorem table_file_edits_eq_nil (t : SupabaseTable) (files : List FileEntry)
    (h : ∀ fi ∈ files, fi.path = none ∨ fi.content = none) :
    table_file_edits t files = [] := by
  induction files with
  | nil => rfl
  | cons f fs ih =>
      have hf := h f (List.mem_cons_self f fs)
      have hcond : (truthy f.path && truthy f.content) = false := by
        rcases hf with hf | hf <;> simp [hf, truthy]
      simp only [table_file_edits, List.flatMap_cons] at *
      rw [hcond]
      simpa using ih fun fi hfi => h fi (List.mem_cons_of_mem f hfi)

/-- The integration edit loop issues nothing when every entry misses
`path` or `content`. -/
theorem integration_file_edits_eq_nil (files : List FileEntry)
    (h : ∀ fi ∈ files, fi.path = none ∨ fi.content = none) :
    integration_file_edits files = [] := by
  induction files with
  | nil => rfl
  | cons f fs ih =>
      have hf := h f (List.mem_cons_self f fs)
      have hcond : (truthy f.path && truthy f.content) = false := by
        rcases hf with hf | hf <;> simp [hf, truthy]
      simp only [integration_file_edits, List.flatMap_cons] at *
      rw [hcond]
      simpa using ih fun fi hfi => h fi (List.mem_cons_of_mem f hfi)

/-- C5: for every per-unit planning call, if the returned response
contains no `file_path` or no `content` (or, for table and integration
responses, an empty or absent `files` list, or only entries missing
`path` or `content`), then no file-edit invocation is issued for that
unit — the unit's trace is exactly its planning call. -/
theorem per_unit_missing_fields_no_edit (O : AgentCall → PlanResp)
    (c : Component) (r : APIRoute) (t : SupabaseTable) :
    ((O (AgentCall.planComponent c.name)).file_path = none ∨
        (O (AgentCall.planComponent c.name)).content = none →
      implement_one_component O c = [AgentCall.planComponent c.name]) ∧
    ((O (AgentCall.planRoute r.path)).file_path = none ∨
        (O (AgentCall.planRoute r.path)).content = none →
      implement_one_route O r = [AgentCall.planRoute r.path]) ∧
    ((O (AgentCall.planTable t.name)).files = none ∨
        (O (AgentCall.planTable t.name)).files = some [] →
      implement_one_table O t = [AgentCall.planTable t.name]) ∧
    ((∀ fi ∈ ((O (AgentCall.planTable t.name)).files).getD [],
        fi.path = none ∨ fi.content = none) →
      implement_one_table O t = [AgentCall.planTable t.name]) ∧
    ((O AgentCall.planIntegration).files = none ∨
        (O AgentCall.planIntegration).files = some [] →
      _integrate_components O = [AgentCall.planIntegration]) ∧
    ((∀ fi ∈ ((O AgentCall.planIntegration).files).getD [],
        fi.path = none ∨ fi.content = none) →
      _integrate_components O = [AgentCall.planIntegration]) := by
  refine ⟨?_, ?_, ?_, ?_, ?_, ?_⟩
  · intro h
    rcases h with h | h <;> simp [implement_one_component, truthy, h]
  · intro h
    rcases h with h | h <;> simp [implement_one_route, truthy, h]
  · intro h
    rcases h with h | h <;> simp [implement_one_table, truthyFiles, h]
  · intro h
    rcases hf : (O (AgentCall.planTable t.name)).files with _ | files
    · simp [implement_one_table, truthyFiles, hf]
    · rw [hf] at h
      simp only [Option.getD_some] at h
      have hnil := table_file_edits_eq_nil t files h
      simp [implement_one_table, truthyFiles, hf, hnil]
  · intro h
    rcases h with h | h <;> simp [_integrate_components, truthyFiles, h]
  · intro h
    rcases hf : (O AgentCall.planIntegration).files with _ | files
    · simp [_integrate_components, truthyFiles, hf]
    · rw [hf] at h
      simp only [Option.getD_some] at h
      have hnil := integration_file_edits_eq_nil files h
      simp [_integrate_components, truthyFiles, hf, hnil]

/-- An oracle whose planning responses carry none of the expected
keys. -/
def emptyPlanOracle : AgentCall → PlanResp :=
  fun _ => ⟨none, none, none⟩

/-- An oracle whose planning responses carry a non-empty `files` list
all of whose entries miss `path` or `content`. -/
def partialFilesOracle : AgentCall → PlanResp :=
  fun _ => ⟨none, none, some [⟨none, some "content"⟩, ⟨some "app/page.tsx", none⟩]⟩

/-- Witness for `per_unit_missing_fields_no_edit`, discharging each of
the six hypotheses at concrete responses: absent keys for the first
three and the fifth, a non-empty `files` list of deficient entries for
the fourth and the sixth. -/
theorem per_unit_missing_fields_no_edit_witness :
    implement_one_component emptyPlanOracle ⟨"Navbar", "top navigation", false⟩
      = [AgentCall.planComponent "Navbar"] ∧
    implement_one_route emptyPlanOracle ⟨"/api/items", "GET", "list items", "select"⟩
      = [AgentCall.planRoute "/api/items"] ∧
    implement_one_table emptyPlanOracle ⟨"items", "create table items"⟩
      = [AgentCall.planTable "items"] ∧
    implement_one_table partialFilesOracle ⟨"items", "create table items"⟩
      = [AgentCall.planTable "items"] ∧
    _integrate_components emptyPlanOracle = [AgentCall.planIntegration] ∧
    _integrate_components partialFilesOracle = [AgentCall.planIntegration] := by
  have h1 := per_unit_missing_fields_no_edit emptyPlanOracle
    ⟨"Navbar", "top navigation", false⟩
    ⟨"/api/items", "GET", "list items", "select"⟩ ⟨"items", "create table items"⟩
  have h2 := per_unit_missing_fields_no_edit partialFilesOracle
    ⟨"Navbar", "top navigation", false⟩
    ⟨"/api/items", "GET", "list items", "select"⟩ ⟨"items", "create table items"⟩
  exact ⟨h1.1 (Or.inl rfl), h1.2.1 (Or.inl rfl), h1.2.2.1 (Or.inl rfl),
    h2.2.2.2.1 (by decide), h1.2.2.2.2.1 (Or.inl rfl),
    h2.2.2.2.2.2 (by decide)⟩

end Blueberry
